import Mathlib

/-!
Shallow embedding of the configuration-store and mount-table-store logic of
samba_control_center.py: the SambaConfig class (INI-section share model with
backup-before-save), the MountManager class (fstab line parsing, credentials
files, append/delete with backup) and the Python string and file primitives
they rely on.  File contents are modelled as Lean String values, the
filesystem as an association list from path to content plus a mode table.
-/

namespace SambaCC

/-! ### Python string primitives, modelled on the character list of a String -/

/-- Python substring test on character lists. -/
def pyInB (needle hay : List Char) : Bool := decide (needle <:+: hay)

/-- Python `needle in hay` substring test on strings. -/
def pyIn (needle hay : String) : Bool := pyInB needle.data hay.data

/-- Python str.startswith. -/
def pyStartsWith (p s : String) : Bool := decide (p.data <+: s.data)

/-- Leading-whitespace removal. -/
def lstripChars (l : List Char) : List Char := l.dropWhile Char.isWhitespace

/-- Trailing-whitespace removal. -/
def rstripChars (l : List Char) : List Char :=
  (l.reverse.dropWhile Char.isWhitespace).reverse

/-- Python str.strip() with no arguments. -/
def pyStrip (s : String) : String := String.mk (rstripChars (lstripChars s.data))

/-- Python str.lower(). -/
def pyLower (s : String) : String := String.mk (s.data.map Char.toLower)

def wordsAux : List Char → List Char → List (List Char)
  | [], acc => if acc.isEmpty then [] else [acc.reverse]
  | c :: cs, acc =>
    if c.isWhitespace then
      (if acc.isEmpty then wordsAux cs [] else acc.reverse :: wordsAux cs [])
    else wordsAux cs (c :: acc)

/-- Python str.split() with no arguments: split on whitespace runs, no empty fields. -/
def pySplit (s : String) : List String := (wordsAux s.data []).map String.mk

def splitSepAux (sep : Char) : List Char → List Char → List (List Char)
  | [], acc => [acc.reverse]
  | c :: cs, acc =>
    if c = sep then acc.reverse :: splitSepAux sep cs []
    else splitSepAux sep cs (c :: acc)

/-- Python str.split(sep) for a one-character separator: empty fields are kept. -/
def pySplitSep (sep : Char) (s : String) : List String :=
  (splitSepAux sep s.data []).map String.mk

def readlinesAux : List Char → List Char → List (List Char)
  | [], acc => if acc.isEmpty then [] else [acc.reverse]
  | c :: cs, acc =>
    if c = '\n' then (c :: acc).reverse :: readlinesAux cs []
    else readlinesAux cs (c :: acc)

/-- Python file.readlines(): split after every newline, the newline kept on each line. -/
def pyReadlines (s : String) : List String := (readlinesAux s.data []).map String.mk

/-- Writing a list of lines back out with f.write(line): plain concatenation. -/
def writeLines (ls : List String) : String := String.mk ((ls.map String.data).flatten)

/-- Python mountpoint.replace with the slash and underscore arguments. -/
def slashToUnderscore (s : String) : String :=
  String.mk (s.data.map (fun c => if c = '/' then '_' else c))

/-- Dropping the first n characters of a string. -/
def pyDrop (s : String) (n : Nat) : String := String.mk (s.data.drop n)

/-! ### Filesystem model: path-to-content map plus a path-to-mode table -/

structure FS where
  files : List (String × String)
  modes : List (String × Nat)
deriving DecidableEq

def fsRead (fs : FS) (p : String) : Option String :=
  (fs.files.find? (fun kv => kv.1 == p)).map (fun kv => kv.2)

def fsMode (fs : FS) (p : String) : Option Nat :=
  (fs.modes.find? (fun kv => kv.1 == p)).map (fun kv => kv.2)

def fsWrite (fs : FS) (p c : String) : FS :=
  { fs with files := (p, c) :: fs.files.filter (fun kv => !(kv.1 == p)) }

def fsChmod (fs : FS) (p : String) (m : Nat) : FS :=
  { fs with modes := (p, m) :: fs.modes.filter (fun kv => !(kv.1 == p)) }

/-- shutil.copy2: copies content and permission mode; fails when the source is absent. -/
def fsCopy (fs : FS) (src dst : String) : Option FS :=
  match fsRead fs src with
  | none => none
  | some c =>
    let fs1 := fsWrite fs dst c
    some (match fsMode fs src with
          | none => fs1
          | some m => fsChmod fs1 dst m)

/-! ### Path constants of the application -/

def SMB_CONF : String := "/etc/samba/smb.conf"

def BACKUP_DIR : String := "/etc/samba/backups"

def FSTAB : String := "/etc/fstab"

def CREDENTIALS_DIR : String := "/etc/samba/credentials"

/-! ### Data models (the SambaShare and CifsMount dataclasses) -/

structure SambaShare where
  name : String
  path : String
  comment : String := ""
  writable : Bool := true
  browseable : Bool := true
  guest_ok : Bool := false
  valid_users : String := ""
  create_mask : String := "0664"
  directory_mask : String := "0775"
deriving DecidableEq

structure CifsMount where
  remote : String
  mountpoint : String
  fstype : String
  options : String
  credentials_file : Option String := none
  is_mounted : Bool := false
deriving DecidableEq

/-! ### MountManager: reading /proc/mounts and /etc/fstab -/

/-- The filesystem type tags recognized as network filesystems. -/
def netFsTypes : List String := ["cifs", "smb", "smb3", "smb2", "smbfs"]

/-- One line of MountManager.get_active_mounts: a line contributes its second
whitespace field when it has at least three fields and its lowered third field
is a recognized network-filesystem tag. -/
def activeMountOfLine (line : String) : Option String :=
  match pySplit line with
  | _ :: mp :: ty :: _ =>
    if netFsTypes.contains (pyLower ty) then some mp else none
  | _ => none

/-- MountManager.get_active_mounts, as a function of the /proc/mounts content:
the mountpoints of the lines carrying a recognized network-filesystem tag. -/
def get_active_mounts (proc : String) : List String :=
  (pyReadlines proc).filterMap activeMountOfLine

/-- First option of the comma-split list starting with the credentials key,
with everything after its first equals sign extracted. -/
def findCredsOpt : List String → Option String
  | [] => none
  | o :: rest =>
    if pyStartsWith "credentials=" o then some (pyDrop o 12) else findCredsOpt rest

/-- Credentials-file extraction of MountManager.get_fstab_mounts. -/
def parseCredsFile (opts : String) : Option String :=
  if pyIn "credentials=" opts then findCredsOpt (pySplitSep ',' opts) else none

/-- One line of MountManager.get_fstab_mounts: blank and comment lines are
skipped; a line with at least four fields and a recognized type tag parses to
a CifsMount, is_mounted computed against the active mountpoint list. -/
def fstabMountOfLine (active : List String) (raw : String) : Option CifsMount :=
  let line := pyStrip raw
  if line == "" || pyStartsWith "#" line then none
  else
    match pySplit line with
    | remote :: mp :: ty :: opts :: _ =>
      if netFsTypes.contains (pyLower ty) then
        some { remote := remote, mountpoint := mp, fstype := ty, options := opts,
               credentials_file := parseCredsFile opts,
               is_mounted := active.contains mp }
      else none
    | _ => none

/-- MountManager.get_fstab_mounts, as a function of the fstab content and the
/proc/mounts content. -/
def get_fstab_mounts (fstab proc : String) : List CifsMount :=
  (pyReadlines fstab).filterMap (fstabMountOfLine (get_active_mounts proc))

/-! ### MountManager: add_mount -/

/-- Path of the credentials file written by MountManager.add_mount:
os.path.join of CREDENTIALS_DIR with the creds_ file name derived from the
mountpoint by replacing slashes with underscores. -/
def credsFilePath (mp : String) : String :=
  CREDENTIALS_DIR ++ "/" ++ ("creds_" ++ slashToUnderscore mp ++ ".txt")

/-- Content of the credentials file: a username line and a password line. -/
def credsContent (u p : String) : String :=
  "username=" ++ u ++ "\n" ++ ("password=" ++ p ++ "\n")

/-- The option string after the credentials step of MountManager.add_mount:
when both username and password are nonempty a credentials option is appended
(or becomes the whole string when the options were empty). -/
def optionsAfterCreds (u p opts mp : String) : String :=
  if u != "" && p != "" then
    (if opts == "" then "credentials=" ++ credsFilePath mp
     else opts ++ "," ++ "credentials=" ++ credsFilePath mp)
  else opts

/-- Default-option step of MountManager.add_mount: empty options become the
two default resilience options; otherwise they are appended exactly when
the string _netdev does not occur as a substring. -/
def applyDefaultOptions (opts : String) : String :=
  if opts == "" then "_netdev,nofail"
  else if !(pyIn "_netdev" opts) then opts ++ ",_netdev,nofail"
  else opts

/-- The option string finally written to the fstab entry by add_mount. -/
def finalOptions (u p opts mp : String) : String :=
  applyDefaultOptions (optionsAfterCreds u p opts mp)

/-- The marker beginning every provenance comment written by add_mount and
tested by delete_mount. -/
def provenanceTag : String := "# Added by Samba Control Center"

/-- The provenance comment line written by add_mount (timestamp included). -/
def addMountComment (now : String) : String := provenanceTag ++ " - " ++ now ++ "\n"

/-- The tab-separated fstab entry line written by add_mount. -/
def fstabEntryLine (remote mp fstype opts : String) : String :=
  remote ++ "\t" ++ mp ++ "\t" ++ fstype ++ "\t" ++ opts ++ "\t0 0\n"

/-- MountManager.add_mount on the filesystem state: optional credentials file
write and chmod to mode 600, option-string adjustment, backup of fstab to the
fixed path fstab.bak, then append of a blank separator, the provenance comment
and the entry line.  The mkdir of the mountpoint directory is outside the file
model.  A missing fstab makes the backup copy fail, which the code reports as
an error (its exception path). -/
def add_mountFS (fs : FS) (remote mp fstype u p opts now : String) :
    FS × Bool × String :=
  let fs1 :=
    if u != "" && p != "" then
      fsChmod (fsWrite fs (credsFilePath mp) (credsContent u p)) (credsFilePath mp) 384
    else fs
  let op := finalOptions u p opts mp
  match fsCopy fs1 FSTAB (FSTAB ++ ".bak") with
  | none => (fs1, false, "Error adding mount")
  | some fs2 =>
    match fsRead fs2 FSTAB with
    | none => (fs2, false, "Error adding mount")
    | some content =>
      (fsWrite fs2 FSTAB
        (content ++ "\n" ++ addMountComment now ++ fstabEntryLine remote mp fstype op),
       true, "Mount added successfully")

/-! ### MountManager: delete_mount -/

/-- The line filter of MountManager.delete_mount.  The Bool argument is the
skip_next_comment flag: a non-comment line containing the mountpoint is
dropped and sets the flag; while the flag is set, the next line whose stripped
form starts with the provenance marker is dropped and clears it; every other
line is written through unchanged. -/
def deleteMountAux (mp : String) : Bool → List String → List String
  | _, [] => []
  | skip, line :: rest =>
    if pyIn mp line && !(pyStartsWith "#" (pyStrip line)) then
      deleteMountAux mp true rest
    else if skip && pyStartsWith provenanceTag (pyStrip line) then
      deleteMountAux mp false rest
    else line :: deleteMountAux mp skip rest

/-- The content rewritten by delete_mount: readlines, filter, write back. -/
def deleteMountContent (mp content : String) : String :=
  writeLines (deleteMountAux mp false (pyReadlines content))

/-- MountManager.delete_mount on the filesystem state: backup of fstab to the
fixed path fstab.bak, then rewrite through deleteMountContent.  A missing
fstab makes the backup copy fail (the exception path of the code). -/
def delete_mountFS (fs : FS) (mp : String) : FS × Bool × String :=
  match fsCopy fs FSTAB (FSTAB ++ ".bak") with
  | none => (fs, false, "Error removing mount")
  | some fs1 =>
    match fsRead fs1 FSTAB with
    | none => (fs1, false, "Error removing mount")
    | some content =>
      (fsWrite fs1 FSTAB (deleteMountContent mp content), true, "Mount removed from fstab")

/-! ### SambaConfig: the INI model -/

structure IniFile where
  sections : List (String × List (String × String))
deriving DecidableEq

def lookupKv (kvs : List (String × String)) (key : String) : Option String :=
  (kvs.find? (fun kv => kv.1 == key)).map (fun kv => kv.2)

/-- configparser get with a fallback value. -/
def getKv (kvs : List (String × String)) (key fallbk : String) : String :=
  (lookupKv kvs key).getD fallbk

/-- The yes/no to Bool reading used by get_shares. -/
def pyYes (s : String) : Bool := pyLower s == "yes"

/-- The SambaShare built by SambaConfig.get_shares from one section. -/
def shareOfSection (sec : String × List (String × String)) : SambaShare :=
  { name := sec.1
  , path := getKv sec.2 "path" ""
  , comment := getKv sec.2 "comment" ""
  , writable := pyYes (getKv sec.2 "writable" "yes")
  , browseable := pyYes (getKv sec.2 "browseable" "yes")
  , guest_ok := pyYes (getKv sec.2 "guest ok" "no")
  , valid_users := getKv sec.2 "valid users" ""
  , create_mask := getKv sec.2 "create mask" "0664"
  , directory_mask := getKv sec.2 "directory mask" "0775" }

/-- SambaConfig.get_shares: every section whose lowered name is not the
reserved global name, mapped to a SambaShare. -/
def get_shares (ini : IniFile) : List SambaShare :=
  (ini.sections.filter (fun sec => !(pyLower sec.1 == "global"))).map shareOfSection

/-- configparser has_section: exact section-name match. -/
def has_section (ini : IniFile) (name : String) : Bool :=
  ini.sections.any (fun sec => sec.1 == name)

/-- The key/value pairs written by SambaConfig.add_share, in insertion order;
comment and valid users are written only when nonempty. -/
def shareKvs (share : SambaShare) : List (String × String) :=
  [("path", share.path),
   ("writable", if share.writable then "yes" else "no"),
   ("browseable", if share.browseable then "yes" else "no"),
   ("guest ok", if share.guest_ok then "yes" else "no")]
  ++ (if share.comment == "" then [] else [("comment", share.comment)])
  ++ (if share.valid_users == "" then [] else [("valid users", share.valid_users)])
  ++ [("create mask", share.create_mask), ("directory mask", share.directory_mask)]

/-- configparser write of one section with spaces around the delimiter. -/
def serializeSection (sec : String × List (String × String)) : String :=
  "[" ++ sec.1 ++ "]\n"
    ++ writeLines (sec.2.map (fun kv => kv.1 ++ " = " ++ kv.2 ++ "\n"))
    ++ "\n"

/-- configparser write of the whole file. -/
def serializeIni (ini : IniFile) : String := writeLines (ini.sections.map serializeSection)

/-- The backup path used by SambaConfig.create_backup: os.path.join of
BACKUP_DIR with the smb.conf name carrying the timestamp. -/
def configBackupPath (ts : String) : String :=
  BACKUP_DIR ++ "/smb.conf." ++ ts ++ ".bak"

/-- SambaConfig.create_backup on the filesystem state: a timestamped copy of
the configuration file, or no path when the file is absent. -/
def create_backupFS (fs : FS) (ts : String) : FS × Option String :=
  match fsCopy fs SMB_CONF (configBackupPath ts) with
  | none => (fs, none)
  | some fs1 => (fs1, some (configBackupPath ts))

/-- SambaConfig.save on the filesystem state: create_backup first, then the
serialized parser state overwrites the configuration file. -/
def saveFS (fs : FS) (ini : IniFile) (ts : String) : FS × Bool :=
  let fs1 := (create_backupFS fs ts).1
  (fsWrite fs1 SMB_CONF (serializeIni ini), true)

/-- The in-memory and on-disk state of a SambaConfig instance. -/
structure ConfigState where
  fs : FS
  ini : IniFile
deriving DecidableEq

/-- SambaConfig.add_share: a Conflict when a section of that exact name
exists (the parser state and the file untouched, the error set); otherwise
the new section is appended with its key/value pairs and the state saved. -/
def add_share (st : ConfigState) (share : SambaShare) (ts : String) :
    ConfigState × Bool × Option String :=
  if has_section st.ini share.name then
    (st, false, some ("Share " ++ share.name ++ " already exists"))
  else
    let ini1 : IniFile := ⟨st.ini.sections ++ [(share.name, shareKvs share)]⟩
    let fs1 := (saveFS st.fs ini1 ts).1
    (⟨fs1, ini1⟩, true, none)

/-- SambaConfig.delete_share: NotFound when no section of that exact name
exists; otherwise the section is removed and the state saved. -/
def delete_share (st : ConfigState) (name ts : String) :
    ConfigState × Bool × Option String :=
  if has_section st.ini name then
    let ini1 : IniFile := ⟨st.ini.sections.filter (fun sec => !(sec.1 == name))⟩
    let fs1 := (saveFS st.fs ini1 ts).1
    (⟨fs1, ini1⟩, true, none)
  else
    (st, false, some ("Share " ++ name ++ " not found"))

/-! ### Side conditions and spec-side comparison definitions -/

/-- The content ends with a newline or is empty: the case in which appended
text starts on a fresh line. -/
def endsNL (s : String) : Prop := s = "" ∨ ∃ l₀, s.data = l₀ ++ ['\n']

/-- The deletion pass as the specification words it: a non-comment line
containing the mountpoint is omitted together with the provenance comment
line immediately following it (when the immediately following line is not a
provenance comment, only the matching line itself is omitted); every other
line is preserved.  This definition follows the claim text and is compared
against the deleteMountAux pass of the code. -/
def deleteMountSpecLines (mp : String) : List String → List String
  | [] => []
  | [l] =>
    if pyIn mp l && !(pyStartsWith "#" (pyStrip l)) then [] else [l]
  | l :: l2 :: rest =>
    if pyIn mp l && !(pyStartsWith "#" (pyStrip l)) then
      (if pyStartsWith provenanceTag (pyStrip l2) then deleteMountSpecLines mp rest
       else deleteMountSpecLines mp (l2 :: rest))
    else l :: deleteMountSpecLines mp (l2 :: rest)

/-! ### Basic filesystem lemmas -/

theorem fsRead_fsWrite_same (fs : FS) (p c : String) :
    fsRead (fsWrite fs p c) p = some c := by
  simp [fsRead, fsWrite, List.find?]

theorem find?_filter_ne {α : Type} (l : List (String × α)) (p q : String) (h : p ≠ q) :
    (l.filter (fun kv => !(kv.1 == q))).find? (fun kv => kv.1 == p) =
      l.find? (fun kv => kv.1 == p) := by
  induction l with
  | nil => rfl
  | cons a t ih =>
    by_cases haq : a.1 = q
    · have h1 : (a.1 == q) = true := beq_iff_eq.mpr haq
      have h2 : (a.1 == p) = false := by
        refine beq_eq_false_iff_ne.mpr ?_
        rw [haq]; exact fun hq => h hq.symm
      simp [List.filter_cons, h1, List.find?, h2, ih]
    · have h1 : (a.1 == q) = false := beq_eq_false_iff_ne.mpr haq
      by_cases hap : a.1 = p
      · have h2 : (a.1 == p) = true := beq_iff_eq.mpr hap
        simp [List.filter_cons, h1, List.find?, h2]
      · have h2 : (a.1 == p) = false := beq_eq_false_iff_ne.mpr hap
        simp [List.filter_cons, h1, List.find?, h2, ih]

theorem fsRead_fsWrite_ne (fs : FS) (p q c : String) (h : p ≠ q) :
    fsRead (fsWrite fs q c) p = fsRead fs p := by
  have h1 : (q == p) = false := beq_eq_false_iff_ne.mpr (fun hq => h hq.symm)
  simp [fsRead, fsWrite, List.find?, h1, find?_filter_ne fs.files p q h]

theorem fsRead_fsChmod (fs : FS) (p q : String) (m : Nat) :
    fsRead (fsChmod fs q m) p = fsRead fs p := rfl

theorem fsMode_fsWrite (fs : FS) (p q c : String) :
    fsMode (fsWrite fs q c) p = fsMode fs p := rfl

theorem fsMode_fsChmod_same (fs : FS) (p : String) (m : Nat) :
    fsMode (fsChmod fs p m) p = some m := by
  simp [fsMode, fsChmod, List.find?]

theorem fsMode_fsChmod_ne (fs : FS) (p q : String) (m : Nat) (h : p ≠ q) :
    fsMode (fsChmod fs q m) p = fsMode fs p := by
  have h1 : (q == p) = false := beq_eq_false_iff_ne.mpr (fun hq => h hq.symm)
  simp [fsMode, fsChmod, List.find?, h1, find?_filter_ne fs.modes p q h]

theorem fsCopy_eq_some (fs : FS) (src dst c : String) (h : fsRead fs src = some c) :
    ∃ fs1, fsCopy fs src dst = some fs1 ∧
      fsRead fs1 dst = some c ∧
      (∀ x, x ≠ dst → fsRead fs1 x = fsRead fs x) ∧
      (∀ x, x ≠ dst → fsMode fs1 x = fsMode fs x) := by
  refine ⟨_, by rw [fsCopy, h], ?_, ?_, ?_⟩
  · cases hm : fsMode fs src <;>
      simp [fsCopy, h, hm, fsRead_fsChmod, fsRead_fsWrite_same]
  · intro x hx
    cases hm : fsMode fs src <;>
      simp [fsCopy, h, hm, fsRead_fsChmod, fsRead_fsWrite_ne fs x dst c hx]
  · intro x hx
    cases hm : fsMode fs src with
    | none => simp [fsCopy, h, hm, fsMode_fsWrite]
    | some m => simp [fsCopy, h, hm, fsMode_fsChmod_ne _ x dst m hx, fsMode_fsWrite]

theorem fsCopy_none_read (fs : FS) (src dst : String) (h : fsRead fs src = none) :
    fsCopy fs src dst = none := by
  rw [fsCopy, h]

/-! ### Support lemmas on the string primitives -/

theorem singleton_infix_iff_mem (a : Char) (l : List Char) : [a] <:+: l ↔ a ∈ l := by
  constructor
  · intro h
    exact List.singleton_sublist.mp h.sublist
  · intro h
    obtain ⟨s, t, rfl⟩ := List.append_of_mem h
    exact ⟨s, t, by simp⟩

theorem pyIn_eq_true_iff (needle hay : String) :
    pyIn needle hay = true ↔ needle.data <:+: hay.data := by
  simp [pyIn, pyInB]

theorem pyIn_eq_false_iff (needle hay : String) :
    pyIn needle hay = false ↔ ¬ needle.data <:+: hay.data := by
  simp [pyIn, pyInB]

theorem pyIn_newline_iff (s : String) : pyIn "\n" s = false ↔ '\n' ∉ s.data := by
  rw [pyIn_eq_false_iff]
  have hd : ("\n" : String).data = ['\n'] := rfl
  rw [hd, singleton_infix_iff_mem]

theorem noNL_append (a b : String) (ha : pyIn "\n" a = false) (hb : pyIn "\n" b = false) :
    pyIn "\n" (a ++ b) = false := by
  rw [pyIn_newline_iff] at ha hb ⊢
  rw [String.data_append]
  simp only [List.mem_append]
  exact fun h => h.elim ha hb

theorem pyIn_mp_newline (mp : String) (hne : mp ≠ "") (hnl : pyIn "\n" mp = false) :
    pyIn mp "\n" = false := by
  rw [pyIn_eq_false_iff]
  intro h
  have hd : ("\n" : String).data = ['\n'] := rfl
  rw [hd] at h
  rcases List.sublist_singleton.mp h.sublist with h0 | h1
  · exact hne (String.ext h0)
  · rw [pyIn_newline_iff, h1] at hnl
    exact hnl (by simp)

theorem readlinesAux_flatten (cs : List Char) :
    ∀ acc, (readlinesAux cs acc).flatten = acc.reverse ++ cs := by
  induction cs with
  | nil =>
    intro acc
    by_cases h : acc.isEmpty
    · simp [readlinesAux, h, List.isEmpty_iff.mp h]
    · simp [readlinesAux, h]
  | cons c cs ih =>
    intro acc
    by_cases h : c = '\n'
    · simp [readlinesAux, h, ih]
    · simp [readlinesAux, h, ih (c :: acc)]

theorem writeLines_pyReadlines (s : String) : writeLines (pyReadlines s) = s := by
  apply String.ext
  show ((((readlinesAux s.data []).map String.mk).map String.data).flatten) = s.data
  rw [List.map_map]
  have h1 : (String.data ∘ String.mk) = id := funext fun l => rfl
  rw [h1, List.map_id, readlinesAux_flatten s.data []]
  rfl

theorem writeLines_append (l₁ l₂ : List String) :
    writeLines (l₁ ++ l₂) = writeLines l₁ ++ writeLines l₂ := by
  apply String.ext
  simp [writeLines, String.data_append]

theorem readlinesAux_concat (l₀ : List Char) :
    ∀ l₂ acc, readlinesAux ((l₀ ++ ['\n']) ++ l₂) acc =
      readlinesAux (l₀ ++ ['\n']) acc ++ readlinesAux l₂ [] := by
  induction l₀ with
  | nil =>
    intro l₂ acc
    simp [readlinesAux]
  | cons c l₀ ih =>
    intro l₂ acc
    have hstep : ((c :: l₀) ++ ['\n']) ++ l₂ = c :: ((l₀ ++ ['\n']) ++ l₂) := by simp
    have hstep2 : (c :: l₀) ++ ['\n'] = c :: (l₀ ++ ['\n']) := by simp
    rw [hstep, hstep2]
    simp only [readlinesAux]
    by_cases h : c = '\n'
    · simp only [if_pos h, ih l₂ ([] : List Char), List.cons_append]
    · simp only [if_neg h, ih l₂ (c :: acc)]

theorem pyReadlines_append (s t : String) (h : endsNL s) :
    pyReadlines (s ++ t) = pyReadlines s ++ pyReadlines t := by
  rcases h with h | ⟨l₀, hd⟩
  · subst h
    have h2 : ("" ++ t : String) = t := by
      apply String.ext; simp [String.data_append]
    rw [h2]
    rfl
  · show (readlinesAux (s ++ t).data []).map String.mk =
      (readlinesAux s.data []).map String.mk ++ (readlinesAux t.data []).map String.mk
    rw [String.data_append, hd, readlinesAux_concat, List.map_append]

theorem readlinesAux_line (w : List Char) (hw : '\n' ∉ w) :
    ∀ rest acc, readlinesAux (w ++ '\n' :: rest) acc =
      (acc.reverse ++ w ++ ['\n']) :: readlinesAux rest [] := by
  induction w with
  | nil =>
    intro rest acc
    simp [readlinesAux]
  | cons c w ih =>
    intro rest acc
    have hc : c ≠ '\n' := fun h => hw (by simp [h])
    have hw2 : '\n' ∉ w := fun h => hw (by simp [h])
    simp [readlinesAux, hc, ih hw2 rest (c :: acc)]

theorem pyReadlines_line_cons (w rest : String) (hw : pyIn "\n" w = false) :
    pyReadlines ((w ++ "\n") ++ rest) = (w ++ "\n") :: pyReadlines rest := by
  show (readlinesAux ((w ++ "\n") ++ rest).data []).map String.mk = _
  have hd : ((w ++ "\n") ++ rest).data = w.data ++ '\n' :: rest.data := by
    simp [String.data_append]
  rw [hd, readlinesAux_line w.data (by rwa [pyIn_newline_iff] at hw) rest.data []]
  have hm : String.mk (List.reverse [] ++ w.data ++ ['\n']) = w ++ "\n" := by
    apply String.ext; simp [String.data_append]
  simp only [List.map_cons, hm]
  rfl

theorem pyReadlines_single_line (w : String) (hw : pyIn "\n" w = false) :
    pyReadlines (w ++ "\n") = [w ++ "\n"] := by
  have h := pyReadlines_line_cons w "" hw
  have h2 : ((w ++ "\n") ++ "" : String) = w ++ "\n" := by
    apply String.ext; simp [String.data_append]
  rw [h2] at h
  rw [h]
  rfl

theorem pyReadlines_newline_cons (rest : String) :
    pyReadlines ("\n" ++ rest) = "\n" :: pyReadlines rest := by
  have h0 : pyIn "\n" "" = false := by decide
  have h := pyReadlines_line_cons "" rest h0
  have h2 : (("" : String) ++ "\n") = "\n" := by
    apply String.ext; simp [String.data_append]
  rwa [h2] at h

theorem dropWhile_append_singleton (p : Char → Bool) (c : Char) (hc : ¬ p c = true) :
    ∀ xs : List Char, ∃ ys, (xs ++ [c]).dropWhile p = ys ++ [c] := by
  intro xs
  induction xs with
  | nil => exact ⟨[], by simp [List.dropWhile, hc]⟩
  | cons x t ih =>
    by_cases hx : p x = true
    · obtain ⟨ys, hys⟩ := ih
      exact ⟨ys, by simp [List.dropWhile_cons, hx, hys]⟩
    · exact ⟨x :: t, by simp [List.dropWhile_cons, hx]⟩

theorem pyStrip_hash (s : String) (l : List Char) (h : s.data = '#' :: l) :
    pyStartsWith "#" (pyStrip s) = true := by
  have hhash : ¬ Char.isWhitespace '#' = true := by decide
  show decide (("#" : String).data <+: (pyStrip s).data) = true
  rw [decide_eq_true_iff]
  show ['#'] <+: (pyStrip s).data
  show ['#'] <+: rstripChars (lstripChars s.data)
  rw [h]
  have h1 : lstripChars ('#' :: l) = '#' :: l := by
    simp [lstripChars, List.dropWhile_cons, hhash]
  rw [h1]
  show ['#'] <+: ((('#' :: l).reverse.dropWhile Char.isWhitespace).reverse)
  rw [List.reverse_cons]
  obtain ⟨ys, hys⟩ := dropWhile_append_singleton Char.isWhitespace '#' hhash l.reverse
  rw [hys, List.reverse_append]
  exact ⟨ys.reverse, by simp⟩

/-! ### Disequalities between the paths the stores write -/

theorem take_data_append (a b : String) (n : Nat) (h : n ≤ a.data.length) :
    (a ++ b).data.take n = a.data.take n := by
  rw [String.data_append, List.take_append_of_le_length h]

theorem credsFilePath_take (mp : String) :
    (credsFilePath mp).data.take 6 = ("/etc/s" : String).data := by
  rw [credsFilePath, take_data_append _ _ 6 (by decide), take_data_append _ _ 6 (by decide)]
  decide

theorem credsFilePath_ne_FSTAB (mp : String) : credsFilePath mp ≠ FSTAB := by
  intro h
  have h6 : (credsFilePath mp).data.take 6 = FSTAB.data.take 6 := by rw [h]
  rw [credsFilePath_take] at h6
  exact absurd h6 (by decide)

theorem credsFilePath_ne_bak (mp : String) : credsFilePath mp ≠ FSTAB ++ ".bak" := by
  intro h
  have h6 : (credsFilePath mp).data.take 6 = (FSTAB ++ ".bak").data.take 6 := by rw [h]
  rw [credsFilePath_take, take_data_append _ _ 6 (by decide)] at h6
  exact absurd h6 (by decide)

theorem configBackupPath_data (ts : String) :
    (configBackupPath ts).data =
      ("/etc/samba/backups/smb.conf." : String).data ++ (ts.data ++ (".bak" : String).data) := by
  have h : ("/etc/samba/backups/smb.conf." : String).data =
      BACKUP_DIR.data ++ ("/smb.conf." : String).data := by decide
  rw [configBackupPath, String.data_append, String.data_append, String.data_append, h,
    List.append_assoc]

theorem configBackupPath_ne_SMB_CONF (ts : String) : configBackupPath ts ≠ SMB_CONF := by
  intro h
  have h12 : (configBackupPath ts).data.take 12 = SMB_CONF.data.take 12 := by rw [h]
  rw [configBackupPath_data, List.take_append_of_le_length (by decide)] at h12
  exact absurd h12 (by decide)

theorem configBackupPath_inj (ts ts' : String)
    (h : configBackupPath ts = configBackupPath ts') : ts = ts' := by
  have hd : (configBackupPath ts).data = (configBackupPath ts').data := by rw [h]
  rw [configBackupPath_data, configBackupPath_data] at hd
  exact String.ext (List.append_cancel_right (List.append_cancel_left hd))

/-! ### Lemmas about the delete_mount line filter -/

theorem deleteMountAux_append_keep (mp : String) (l₁ l₂ : List String)
    (h : ∀ l ∈ l₁, pyIn mp l = false) :
    deleteMountAux mp false (l₁ ++ l₂) = l₁ ++ deleteMountAux mp false l₂ := by
  induction l₁ with
  | nil => rfl
  | cons a t ih =>
    have ha : pyIn mp a = false := h a (by simp)
    have ht : ∀ l ∈ t, pyIn mp l = false := fun l hl => h l (by simp [hl])
    show deleteMountAux mp false (a :: (t ++ l₂)) = _
    simp only [deleteMountAux, ha, Bool.false_and, Bool.false_eq_true, if_false,
      ih ht, List.cons_append]

theorem pyIn_mp_entry (remote mp fstype opts : String) :
    pyIn mp (fstabEntryLine remote mp fstype opts) = true := by
  rw [pyIn_eq_true_iff]
  refine ⟨(remote ++ "\t" : String).data, ("\t" ++ fstype ++ "\t" ++ opts ++ "\t0 0\n" : String).data, ?_⟩
  show _ = (fstabEntryLine remote mp fstype opts).data
  simp [fstabEntryLine, String.data_append]

theorem addMountComment_data (now : String) :
    ∃ l, (addMountComment now).data = '#' :: l := by
  refine ⟨(" Added by Samba Control Center - " ++ now ++ "\n" : String).data, ?_⟩
  simp [addMountComment, provenanceTag, String.data_append]

/-- The fstab entry line viewed as a newline-terminated line. -/
theorem fstabEntryLine_eq (remote mp fstype opts : String) :
    fstabEntryLine remote mp fstype opts =
      (remote ++ "\t" ++ mp ++ "\t" ++ fstype ++ "\t" ++ opts ++ "\t0 0") ++ "\n" := by
  apply String.ext
  simp [fstabEntryLine, String.data_append]

/-- The provenance comment line viewed as a newline-terminated line. -/
theorem addMountComment_eq (now : String) :
    addMountComment now = (provenanceTag ++ " - " ++ now) ++ "\n" := rfl

/-- The three lines appended by add_mount, as readlines sees them, whenever the
timestamp and the entry fields carry no newline. -/
theorem pyReadlines_add_suffix (remote mp fstype opts now : String)
    (hnow : pyIn "\n" now = false)
    (hremote : pyIn "\n" remote = false) (hmp : pyIn "\n" mp = false)
    (hfstype : pyIn "\n" fstype = false) (hopts : pyIn "\n" opts = false) :
    pyReadlines ("\n" ++ addMountComment now ++ fstabEntryLine remote mp fstype opts) =
      ["\n", addMountComment now, fstabEntryLine remote mp fstype opts] := by
  have hassoc : ("\n" ++ addMountComment now ++ fstabEntryLine remote mp fstype opts : String)
      = "\n" ++ (addMountComment now ++ fstabEntryLine remote mp fstype opts) := by
    apply String.ext; simp [String.data_append]
  rw [hassoc, pyReadlines_newline_cons]
  have hctext : pyIn "\n" (provenanceTag ++ " - " ++ now) = false := by
    refine noNL_append _ _ (noNL_append _ _ ?_ ?_) hnow <;> decide
  rw [addMountComment_eq, pyReadlines_line_cons _ _ hctext]
  have hetext : pyIn "\n" (remote ++ "\t" ++ mp ++ "\t" ++ fstype ++ "\t" ++ opts ++ "\t0 0") = false := by
    refine noNL_append _ _ (noNL_append _ _ (noNL_append _ _ (noNL_append _ _
      (noNL_append _ _ (noNL_append _ _ (noNL_append _ _ hremote ?_) hmp) ?_)
      hfstype) ?_) hopts) ?_ <;> decide
  rw [fstabEntryLine_eq, pyReadlines_single_line _ hetext]

/-- The delete pass over the three appended lines: the blank separator and the
provenance comment survive, the entry line is dropped. -/
theorem deleteMountAux_add_suffix (remote mp fstype opts now : String)
    (hne : mp ≠ "") (hmp : pyIn "\n" mp = false)
    (hentry : pyStartsWith "#" (pyStrip (fstabEntryLine remote mp fstype opts)) = false) :
    deleteMountAux mp false
        ["\n", addMountComment now, fstabEntryLine remote mp fstype opts] =
      ["\n", addMountComment now] := by
  have h1 : pyIn mp "\n" = false := pyIn_mp_newline mp hne hmp
  obtain ⟨l, hl⟩ := addMountComment_data now
  have h2 : pyStartsWith "#" (pyStrip (addMountComment now)) = true :=
    pyStrip_hash _ l hl
  have h3 : pyIn mp (fstabEntryLine remote mp fstype opts) = true :=
    pyIn_mp_entry remote mp fstype opts
  simp only [deleteMountAux, h1, h2, h3, hentry, Bool.false_and, Bool.and_self,
    Bool.not_true, Bool.not_false, Bool.and_true, Bool.and_false, Bool.false_eq_true,
    if_false, if_true]

theorem deleteMountAux_keep (mp : String) (l₁ : List String)
    (h : ∀ l ∈ l₁, pyIn mp l = false) : deleteMountAux mp false l₁ = l₁ := by
  have h2 := deleteMountAux_append_keep mp l₁ [] h
  simpa [deleteMountAux] using h2

theorem contains_eq_true_iff (l : List String) (a : String) :
    l.contains a = true ↔ a ∈ l := by
  simp [List.contains_iff_exists_mem_beq]

theorem bne_eq_true_of_ne (s : String) (h : s ≠ "") : (s != "") = true := by
  simp [bne, beq_eq_false_iff_ne.mpr h]

/-! ### Claim C4 -/

/-- C4: addShare on a configuration already holding a section of the given
name fails with the Conflict error and leaves the whole state, in particular
the configuration file content, exactly as before the call; no backup is
taken either, so the file is byte-identical to its pre-call state. -/
theorem claim_C4 (st : ConfigState) (share : SambaShare) (ts : String)
    (h : has_section st.ini share.name = true) :
    add_share st share ts =
      (st, false, some ("Share " ++ share.name ++ " already exists")) := by
  simp [add_share, h]

/-- Witness for C4 at a concrete conflicting state. -/
theorem claim_C4_witness :
    has_section ⟨[("docs", [("path", "/srv/docs")])]⟩ "docs" = true ∧
      add_share ⟨⟨[(SMB_CONF, "x")], []⟩, ⟨[("docs", [("path", "/srv/docs")])]⟩⟩
          ⟨"docs", "/srv/docs", "", true, true, false, "", "0664", "0775"⟩ "ts" =
        (⟨⟨[(SMB_CONF, "x")], []⟩, ⟨[("docs", [("path", "/srv/docs")])]⟩⟩, false,
          some ("Share " ++ "docs" ++ " already exists")) :=
  ⟨by decide,
    claim_C4 ⟨⟨[(SMB_CONF, "x")], []⟩, ⟨[("docs", [("path", "/srv/docs")])]⟩⟩
      ⟨"docs", "/srv/docs", "", true, true, false, "", "0664", "0775"⟩ "ts" (by decide)⟩

/-! ### Claim C10 -/

/-- C10: when the mountpoint occurs as a substring in no line of the mount
table, delete_mount still reports success (it never reports a missing entry)
and the rewritten file is identical to the pre-call content. -/
theorem claim_C10 (fs : FS) (mp content : String)
    (hread : fsRead fs FSTAB = some content)
    (hmatch : ∀ l ∈ pyReadlines content, pyIn mp l = false) :
    (delete_mountFS fs mp).2.1 = true ∧
      fsRead (delete_mountFS fs mp).1 FSTAB = some content := by
  obtain ⟨fs1, hcopy, hdst, hoth, hmode⟩ :=
    fsCopy_eq_some fs FSTAB (FSTAB ++ ".bak") content hread
  have hread1 : fsRead fs1 FSTAB = some content := by
    rw [hoth FSTAB (by decide), hread]
  have hdel : deleteMountContent mp content = content := by
    rw [deleteMountContent, deleteMountAux_keep mp _ hmatch, writeLines_pyReadlines]
  constructor
  · simp only [delete_mountFS, hcopy, hread1]
  · simp only [delete_mountFS, hcopy, hread1]
    rw [fsRead_fsWrite_same, hdel]

/-- Witness for C10 at a concrete table and missing mountpoint. -/
theorem claim_C10_witness :
    (delete_mountFS ⟨[(FSTAB, "//s/x /mnt/x cifs rw 0 0\n")], []⟩ "/mnt/z").2.1 = true ∧
      fsRead (delete_mountFS ⟨[(FSTAB, "//s/x /mnt/x cifs rw 0 0\n")], []⟩ "/mnt/z").1 FSTAB =
        some "//s/x /mnt/x cifs rw 0 0\n" :=
  claim_C10 ⟨[(FSTAB, "//s/x /mnt/x cifs rw 0 0\n")], []⟩ "/mnt/z"
    "//s/x /mnt/x cifs rw 0 0\n" (by decide) (by decide)

/-! ### Claim C5 -/

/-- C5 counterexample: with the option string already containing _netdev but
not nofail (and no credentials), add_mount leaves the options untouched, so
the resulting entry options do not include nofail although it was not already
present; the claim that the default resilience options are included whenever
absent fails here. -/
theorem claim_C5_counterexample :
    finalOptions "" "" "rw,_netdev" "/mnt/x" = "rw,_netdev" ∧
      pyIn "nofail" (finalOptions "" "" "rw,_netdev" "/mnt/x") = false ∧
      pyIn "nofail" "rw,_netdev" = false := by decide

/-- C5 amended: the defaults are governed solely by a substring test for
_netdev on the option string after the credentials step: empty options become
exactly the two defaults; a nonempty option string without _netdev gets both
defaults appended; an option string containing _netdev is left unchanged
(nofail is never tested and may stay absent).  In the concrete empty-options
scenario the single resulting entry has options containing both defaults and
no credentials reference. -/
theorem claim_C5 :
    applyDefaultOptions "" = "_netdev,nofail"
    ∧ (∀ opts : String, opts ≠ "" → pyIn "_netdev" opts = false →
        applyDefaultOptions opts = opts ++ ",_netdev,nofail")
    ∧ (∀ opts : String, pyIn "_netdev" opts = true → applyDefaultOptions opts = opts)
    ∧ ((fsRead (add_mountFS ⟨[(FSTAB, "")], []⟩
            "//srv/share" "/mnt/x" "cifs" "" "" "" "2026-01-31 12:00:00").1 FSTAB).map
          (fun c => get_fstab_mounts c "") =
        some [{ remote := "//srv/share", mountpoint := "/mnt/x", fstype := "cifs",
                options := "_netdev,nofail", credentials_file := none,
                is_mounted := false }])
    ∧ pyIn "_netdev" "_netdev,nofail" = true ∧ pyIn "nofail" "_netdev,nofail" = true := by
  refine ⟨by decide, ?_, ?_, by decide, by decide, by decide⟩
  · intro opts hne hnet
    have h1 : (opts == "") = false := beq_eq_false_iff_ne.mpr hne
    simp [applyDefaultOptions, h1, hnet]
  · intro opts hnet
    by_cases h1 : opts = ""
    · rw [pyIn_eq_true_iff] at hnet
      rw [h1] at hnet
      exact absurd hnet (by decide)
    · have h2 : (opts == "") = false := beq_eq_false_iff_ne.mpr h1
      simp [applyDefaultOptions, h2, hnet]

/-- Witness for C5 at a concrete option string without the defaults. -/
theorem claim_C5_witness :
    applyDefaultOptions "rw" = "rw" ++ ",_netdev,nofail" :=
  claim_C5.2.1 "rw" (by decide) (by decide)

/-! ### Claim C9 -/

/-- C9 counterexample: the configuration holds the reserved global section,
yet addShare accepts the name GLOBAL, which names the reserved section under
the case-insensitive matching rule that listShares uses to exclude it; the
accepted section is then invisible to get_shares. -/
theorem claim_C9_counterexample :
    pyLower "GLOBAL" = pyLower "global"
    ∧ (add_share ⟨⟨[(SMB_CONF, "[global]\n")], []⟩, ⟨[("global", [])]⟩⟩
        ⟨"GLOBAL", "/srv/g", "", true, true, false, "", "0664", "0775"⟩ "ts").2.1 = true
    ∧ get_shares (add_share ⟨⟨[(SMB_CONF, "[global]\n")], []⟩, ⟨[("global", [])]⟩⟩
        ⟨"GLOBAL", "/srv/g", "", true, true, false, "", "0664", "0775"⟩ "ts").1.ini = [] := by
  decide

/-- C9 amended: addShare enforces name uniqueness only by exact,
case-sensitive section-name match: it succeeds exactly when no section of the
same exact name exists, so the exact global name is rejected when present,
but a name differing from the global section name only in letter case is
accepted; such a section is then excluded from get_shares by its
case-insensitive global filter, so the share list is unchanged. -/
theorem claim_C9 (st : ConfigState) (share : SambaShare) (ts : String) :
    ((add_share st share ts).2.1 = true ↔ has_section st.ini share.name = false)
    ∧ (pyLower share.name = "global" →
        get_shares (add_share st share ts).1.ini = get_shares st.ini) := by
  constructor
  · by_cases h : has_section st.ini share.name
    · simp [add_share, h]
    · simp [add_share, h, eq_false_of_ne_true h]
  · intro hname
    by_cases h : has_section st.ini share.name
    · simp [add_share, h]
    · have hbeq : (pyLower share.name == "global") = true := beq_iff_eq.mpr hname
      simp [add_share, h, get_shares, List.filter_append, hbeq]

/-- Witness for C9 at a concrete state and a case-variant global name. -/
theorem claim_C9_witness :
    ((add_share ⟨⟨[(SMB_CONF, "[global]\n")], []⟩, ⟨[("global", [])]⟩⟩
        ⟨"Global", "/srv/g", "", true, true, false, "", "0664", "0775"⟩ "ts").2.1 = true ↔
      has_section (⟨[("global", [])]⟩ : IniFile) "Global" = false)
    ∧ get_shares (add_share ⟨⟨[(SMB_CONF, "[global]\n")], []⟩, ⟨[("global", [])]⟩⟩
        ⟨"Global", "/srv/g", "", true, true, false, "", "0664", "0775"⟩ "ts").1.ini =
      get_shares (⟨[("global", [])]⟩ : IniFile) :=
  ⟨(claim_C9 ⟨⟨[(SMB_CONF, "[global]\n")], []⟩, ⟨[("global", [])]⟩⟩
      ⟨"Global", "/srv/g", "", true, true, false, "", "0664", "0775"⟩ "ts").1,
   (claim_C9 ⟨⟨[(SMB_CONF, "[global]\n")], []⟩, ⟨[("global", [])]⟩⟩
      ⟨"Global", "/srv/g", "", true, true, false, "", "0664", "0775"⟩ "ts").2 (by decide)⟩

/-! ### Claim C7 -/

/-- C7: get_shares returns exactly the sections whose lowered name is not the
reserved global name, mapped to SambaShare records, and every missing field
is replaced by its documented default: writable and browseable true, guest
access false, create mask 0664, directory mask 0775; in the concrete
scenario, adding the docs share to a global-only configuration makes
get_shares return exactly one record with the documented values. -/
theorem claim_C7 :
    (∀ ini : IniFile, (get_shares ini).map (fun s => s.name) =
        (ini.sections.filter (fun sec => !(pyLower sec.1 == "global"))).map
          (fun sec => sec.1))
    ∧ (∀ sec : String × List (String × String),
        (lookupKv sec.2 "writable" = none → (shareOfSection sec).writable = true)
        ∧ (lookupKv sec.2 "browseable" = none → (shareOfSection sec).browseable = true)
        ∧ (lookupKv sec.2 "guest ok" = none → (shareOfSection sec).guest_ok = false)
        ∧ (lookupKv sec.2 "create mask" = none → (shareOfSection sec).create_mask = "0664")
        ∧ (lookupKv sec.2 "directory mask" = none →
            (shareOfSection sec).directory_mask = "0775"))
    ∧ ((add_share ⟨⟨[(SMB_CONF, "[global]\n")], []⟩, ⟨[("global", [])]⟩⟩
          ⟨"docs", "/srv/docs", "", true, true, false, "", "0664", "0775"⟩ "ts").2.1 = true
        ∧ get_shares (add_share ⟨⟨[(SMB_CONF, "[global]\n")], []⟩, ⟨[("global", [])]⟩⟩
            ⟨"docs", "/srv/docs", "", true, true, false, "", "0664", "0775"⟩ "ts").1.ini =
          [⟨"docs", "/srv/docs", "", true, true, false, "", "0664", "0775"⟩]) := by
  refine ⟨?_, ?_, by decide⟩
  · intro ini
    rw [get_shares, List.map_map]
    rfl
  · intro sec
    refine ⟨?_, ?_, ?_, ?_, ?_⟩ <;> intro h <;> simp [shareOfSection, getKv, h] <;> decide

/-- Witness for C7 on a section with every share field missing. -/
theorem claim_C7_witness :
    (shareOfSection ("s", [])).writable = true
    ∧ (shareOfSection ("s", [])).browseable = true
    ∧ (shareOfSection ("s", [])).guest_ok = false
    ∧ (shareOfSection ("s", [])).create_mask = "0664"
    ∧ (shareOfSection ("s", [])).directory_mask = "0775" :=
  ⟨(claim_C7.2.1 ("s", [])).1 rfl, (claim_C7.2.1 ("s", [])).2.1 rfl,
   (claim_C7.2.1 ("s", [])).2.2.1 rfl, (claim_C7.2.1 ("s", [])).2.2.2.1 rfl,
   (claim_C7.2.1 ("s", [])).2.2.2.2 rfl⟩

/-! ### Claim C6 -/

theorem creds_option_infix (u p opts mp : String) (hu : u ≠ "") (hp : p ≠ "") :
    pyIn ("credentials=" ++ credsFilePath mp) (finalOptions u p opts mp) = true := by
  rw [pyIn_eq_true_iff]
  have hcond : (u != "" && p != "") = true := by
    rw [bne_eq_true_of_ne u hu, bne_eq_true_of_ne p hp]; rfl
  have hsuffix : ("credentials=" ++ credsFilePath mp).data <:+
      (optionsAfterCreds u p opts mp).data := by
    rw [optionsAfterCreds]
    simp only [hcond, if_true]
    by_cases ho : (opts == "") = true
    · simp only [ho, if_true]
      exact List.suffix_refl _
    · simp only [ho, if_false, Bool.false_eq_true]
      exact ⟨(opts ++ "," : String).data, by simp [String.data_append]⟩
  obtain ⟨t, ht⟩ := hsuffix
  have hXne : ((optionsAfterCreds u p opts mp) == "") = false := by
    refine beq_eq_false_iff_ne.mpr ?_
    intro h0
    have hd : (optionsAfterCreds u p opts mp).data = [] := by rw [h0]
    rw [hd] at ht
    rcases List.append_eq_nil.mp ht with ⟨-, hn⟩
    rw [String.data_append] at hn
    rcases List.append_eq_nil.mp hn with ⟨hc, -⟩
    exact absurd hc (by decide)
  have hsuffix2 : ("credentials=" ++ credsFilePath mp).data <:+
      (optionsAfterCreds u p opts mp).data := ⟨t, ht⟩
  rw [finalOptions, applyDefaultOptions]
  simp only [hXne, if_false, Bool.false_eq_true]
  by_cases hnet : pyIn "_netdev" (optionsAfterCreds u p opts mp) = true
  · simp only [hnet, Bool.not_true, if_false, Bool.false_eq_true]
    exact hsuffix2.isInfix
  · have hnet2 : pyIn "_netdev" (optionsAfterCreds u p opts mp) = false :=
      eq_false_of_ne_true hnet
    simp only [hnet2, Bool.not_false, if_true]
    refine hsuffix2.isInfix.trans ?_
    rw [String.data_append]
    exact (List.prefix_append _ _).isInfix

/-- C6: with nonempty username and password, add_mount writes the credentials
file at the deterministic path derived from the mountpoint, with content
exactly the username line followed by the password line, sets its mode to
owner read/write only (0o600), and the option string written into the
appended entry contains the credentials reference to that path; on success
the appended fstab content is the old content followed by the separator, the
provenance comment and the entry line carrying those options. -/
theorem claim_C6 (fs : FS) (remote mp fstype u p opts now : String)
    (hu : u ≠ "") (hp : p ≠ "") :
    fsRead (add_mountFS fs remote mp fstype u p opts now).1 (credsFilePath mp) =
        some (credsContent u p)
    ∧ fsMode (add_mountFS fs remote mp fstype u p opts now).1 (credsFilePath mp) = some 384
    ∧ pyIn ("credentials=" ++ credsFilePath mp) (finalOptions u p opts mp) = true
    ∧ ((add_mountFS fs remote mp fstype u p opts now).2.1 = true →
        fsRead (add_mountFS fs remote mp fstype u p opts now).1 FSTAB =
          (fsRead fs FSTAB).map (fun c =>
            c ++ "\n" ++ addMountComment now ++
              fstabEntryLine remote mp fstype (finalOptions u p opts mp))) := by
  have hcond : (u != "" && p != "") = true := by
    rw [bne_eq_true_of_ne u hu, bne_eq_true_of_ne p hp]; rfl
  have hr1 : fsRead (fsChmod (fsWrite fs (credsFilePath mp) (credsContent u p))
      (credsFilePath mp) 384) (credsFilePath mp) = some (credsContent u p) := by
    rw [fsRead_fsChmod, fsRead_fsWrite_same]
  have hm1 : fsMode (fsChmod (fsWrite fs (credsFilePath mp) (credsContent u p))
      (credsFilePath mp) 384) (credsFilePath mp) = some 384 :=
    fsMode_fsChmod_same _ _ _
  have hftab1 : fsRead (fsChmod (fsWrite fs (credsFilePath mp) (credsContent u p))
      (credsFilePath mp) 384) FSTAB = fsRead fs FSTAB := by
    rw [fsRead_fsChmod,
      fsRead_fsWrite_ne _ _ _ _ (fun h => credsFilePath_ne_FSTAB mp h.symm)]
  cases hread : fsRead fs FSTAB with
  | none =>
    have hcopy : fsCopy (fsChmod (fsWrite fs (credsFilePath mp) (credsContent u p))
        (credsFilePath mp) 384) FSTAB (FSTAB ++ ".bak") = none :=
      fsCopy_none_read _ _ _ (by rw [hftab1, hread])
    refine ⟨?_, ?_, creds_option_infix u p opts mp hu hp, ?_⟩
    · simp only [add_mountFS, hcond, if_true, hcopy]
      exact hr1
    · simp only [add_mountFS, hcond, if_true, hcopy]
      exact hm1
    · simp only [add_mountFS, hcond, if_true, hcopy]
      intro hfalse
      exact absurd hfalse (by simp)
  | some c =>
    obtain ⟨fs2, hcopy, hdst, hoth, hmode⟩ :=
      fsCopy_eq_some (fsChmod (fsWrite fs (credsFilePath mp) (credsContent u p))
        (credsFilePath mp) 384) FSTAB (FSTAB ++ ".bak") c (by rw [hftab1, hread])
    have hread2 : fsRead fs2 FSTAB = some c := by
      rw [hoth FSTAB (by decide), hftab1, hread]
    refine ⟨?_, ?_, creds_option_infix u p opts mp hu hp, ?_⟩
    · simp only [add_mountFS, hcond, if_true, hcopy, hread2]
      rw [fsRead_fsWrite_ne _ _ _ _ (credsFilePath_ne_FSTAB mp),
        hoth _ (credsFilePath_ne_bak mp)]
      exact hr1
    · simp only [add_mountFS, hcond, if_true, hcopy, hread2]
      rw [fsMode_fsWrite, hmode _ (credsFilePath_ne_bak mp)]
      exact hm1
    · simp only [add_mountFS, hcond, if_true, hcopy, hread2]
      intro _
      rw [fsRead_fsWrite_same]
      rfl

/-- Witness for C6 at concrete credentials. -/
theorem claim_C6_witness :
    fsRead (add_mountFS ⟨[(FSTAB, "")], []⟩ "//srv/share" "/mnt/x" "cifs" "u" "p" "" "T").1
        (credsFilePath "/mnt/x") = some (credsContent "u" "p")
    ∧ fsMode (add_mountFS ⟨[(FSTAB, "")], []⟩ "//srv/share" "/mnt/x" "cifs" "u" "p" "" "T").1
        (credsFilePath "/mnt/x") = some 384
    ∧ pyIn ("credentials=" ++ credsFilePath "/mnt/x") (finalOptions "u" "p" "" "/mnt/x") = true
    ∧ ((add_mountFS ⟨[(FSTAB, "")], []⟩ "//srv/share" "/mnt/x" "cifs" "u" "p" "" "T").2.1 = true →
        fsRead (add_mountFS ⟨[(FSTAB, "")], []⟩ "//srv/share" "/mnt/x" "cifs" "u" "p" "" "T").1
            FSTAB =
          (fsRead (⟨[(FSTAB, "")], []⟩ : FS) FSTAB).map (fun c =>
            c ++ "\n" ++ addMountComment "T" ++
              fstabEntryLine "//srv/share" "/mnt/x" "cifs" (finalOptions "u" "p" "" "/mnt/x"))) :=
  claim_C6 ⟨[(FSTAB, "")], []⟩ "//srv/share" "/mnt/x" "cifs" "u" "p" "" "T"
    (by decide) (by decide)

/-! ### Claim C1 -/

/-- C1 counterexample: two consecutive successful mount-table mutations both
write their backup to the single fixed path fstab.bak, so the second
mutation overwrites the backup taken by the first: the mount-table backup
history is neither timestamped nor append-only. -/
theorem claim_C1_counterexample :
    (add_mountFS ⟨[(FSTAB, "orig\n")], []⟩ "//srv/share" "/mnt/x" "cifs" "" "" "" "T1").2.1 = true
    ∧ (delete_mountFS (add_mountFS ⟨[(FSTAB, "orig\n")], []⟩
        "//srv/share" "/mnt/x" "cifs" "" "" "" "T1").1 "/nonexistent").2.1 = true
    ∧ fsRead (add_mountFS ⟨[(FSTAB, "orig\n")], []⟩
        "//srv/share" "/mnt/x" "cifs" "" "" "" "T1").1 (FSTAB ++ ".bak") = some "orig\n"
    ∧ fsRead (delete_mountFS (add_mountFS ⟨[(FSTAB, "orig\n")], []⟩
        "//srv/share" "/mnt/x" "cifs" "" "" "" "T1").1 "/nonexistent").1 (FSTAB ++ ".bak") ≠
      some "orig\n" := by decide

/-- C1 amended: every successful mutation on either store is preceded by a
full-file backup of the pre-mutation state.  The ConfigStore backup path
embeds the timestamp and distinct timestamps give distinct backup paths, so
its history is append-only across distinct second-granularity timestamps; the
MountTableStore backup however goes to the single fixed path fstab.bak, which
every later mount-table mutation overwrites. -/
theorem claim_C1 :
    (∀ (fs : FS) (mp content : String), fsRead fs FSTAB = some content →
        fsRead (delete_mountFS fs mp).1 (FSTAB ++ ".bak") = some content)
    ∧ (∀ (fs : FS) (remote mp fstype u p opts now content : String),
        fsRead fs FSTAB = some content →
        fsRead (add_mountFS fs remote mp fstype u p opts now).1 (FSTAB ++ ".bak") =
          some content)
    ∧ (∀ (fs : FS) (ini : IniFile) (ts content : String),
        fsRead fs SMB_CONF = some content →
        fsRead (saveFS fs ini ts).1 (configBackupPath ts) = some content)
    ∧ (∀ ts ts' : String, configBackupPath ts = configBackupPath ts' → ts = ts') := by
  refine ⟨?_, ?_, ?_, configBackupPath_inj⟩
  · intro fs mp content hread
    obtain ⟨fs1, hcopy, hdst, hoth, hmode⟩ :=
      fsCopy_eq_some fs FSTAB (FSTAB ++ ".bak") content hread
    have hread1 : fsRead fs1 FSTAB = some content := by
      rw [hoth FSTAB (by decide), hread]
    simp only [delete_mountFS, hcopy, hread1]
    rw [fsRead_fsWrite_ne _ _ _ _ (by decide), hdst]
  · intro fs remote mp fstype u p opts now content hread
    by_cases hcond : (u != "" && p != "") = true
    · have hftab1 : fsRead (fsChmod (fsWrite fs (credsFilePath mp) (credsContent u p))
          (credsFilePath mp) 384) FSTAB = some content := by
        rw [fsRead_fsChmod,
          fsRead_fsWrite_ne _ _ _ _ (fun h => credsFilePath_ne_FSTAB mp h.symm), hread]
      obtain ⟨fs2, hcopy, hdst, hoth, hmode⟩ :=
        fsCopy_eq_some _ FSTAB (FSTAB ++ ".bak") content hftab1
      have hread2 : fsRead fs2 FSTAB = some content := by
        rw [hoth FSTAB (by decide), hftab1]
      simp only [add_mountFS, hcond, if_true, hcopy, hread2]
      rw [fsRead_fsWrite_ne _ _ _ _ (by decide), hdst]
    · have hcond2 : (u != "" && p != "") = false := eq_false_of_ne_true hcond
      obtain ⟨fs2, hcopy, hdst, hoth, hmode⟩ :=
        fsCopy_eq_some fs FSTAB (FSTAB ++ ".bak") content hread
      have hread2 : fsRead fs2 FSTAB = some content := by
        rw [hoth FSTAB (by decide), hread]
      simp only [add_mountFS, hcond2, Bool.false_eq_true, if_false, hcopy, hread2]
      rw [fsRead_fsWrite_ne _ _ _ _ (by decide), hdst]
  · intro fs ini ts content hread
    obtain ⟨fs1, hcopy, hdst, hoth, hmode⟩ :=
      fsCopy_eq_some fs SMB_CONF (configBackupPath ts) content hread
    simp only [saveFS, create_backupFS, hcopy]
    rw [fsRead_fsWrite_ne _ _ _ _ (configBackupPath_ne_SMB_CONF ts), hdst]

/-- Witness for C1 amended, at concrete states for all four parts. -/
theorem claim_C1_witness :
    fsRead (delete_mountFS ⟨[(FSTAB, "a\n")], []⟩ "/mnt/x").1 (FSTAB ++ ".bak") = some "a\n"
    ∧ fsRead (add_mountFS ⟨[(FSTAB, "a\n")], []⟩ "//s/x" "/mnt/x" "cifs" "" "" "" "T").1
        (FSTAB ++ ".bak") = some "a\n"
    ∧ fsRead (saveFS ⟨[(SMB_CONF, "c\n")], []⟩ ⟨[]⟩ "T").1 (configBackupPath "T") = some "c\n"
    ∧ (configBackupPath "T1" = configBackupPath "T2" → "T1" = "T2") :=
  ⟨claim_C1.1 ⟨[(FSTAB, "a\n")], []⟩ "/mnt/x" "a\n" (by decide),
   claim_C1.2.1 ⟨[(FSTAB, "a\n")], []⟩ "//s/x" "/mnt/x" "cifs" "" "" "" "T" "a\n" (by decide),
   claim_C1.2.2.1 ⟨[(SMB_CONF, "c\n")], []⟩ ⟨[]⟩ "T" "c\n" (by decide),
   claim_C1.2.2.2 "T1" "T2"⟩

/-! ### Claim C2 -/

theorem add_mountFS_success (fs : FS) (remote mp fstype u p opts now content : String)
    (hread : fsRead fs FSTAB = some content) :
    (add_mountFS fs remote mp fstype u p opts now).2.1 = true
    ∧ fsRead (add_mountFS fs remote mp fstype u p opts now).1 FSTAB =
        some (content ++ "\n" ++ addMountComment now ++
          fstabEntryLine remote mp fstype (finalOptions u p opts mp)) := by
  by_cases hcond : (u != "" && p != "") = true
  · have hftab1 : fsRead (fsChmod (fsWrite fs (credsFilePath mp) (credsContent u p))
        (credsFilePath mp) 384) FSTAB = some content := by
      rw [fsRead_fsChmod,
        fsRead_fsWrite_ne _ _ _ _ (fun h => credsFilePath_ne_FSTAB mp h.symm), hread]
    obtain ⟨fs2, hcopy, hdst, hoth, hmode⟩ :=
      fsCopy_eq_some _ FSTAB (FSTAB ++ ".bak") content hftab1
    have hread2 : fsRead fs2 FSTAB = some content := by
      rw [hoth FSTAB (by decide), hftab1]
    constructor
    · simp only [add_mountFS, hcond, if_true, hcopy, hread2]
    · simp only [add_mountFS, hcond, if_true, hcopy, hread2]
      rw [fsRead_fsWrite_same]
  · have hcond2 : (u != "" && p != "") = false := eq_false_of_ne_true hcond
    obtain ⟨fs2, hcopy, hdst, hoth, hmode⟩ :=
      fsCopy_eq_some fs FSTAB (FSTAB ++ ".bak") content hread
    have hread2 : fsRead fs2 FSTAB = some content := by
      rw [hoth FSTAB (by decide), hread]
    constructor
    · simp only [add_mountFS, hcond2, Bool.false_eq_true, if_false, hcopy, hread2]
    · simp only [add_mountFS, hcond2, Bool.false_eq_true, if_false, hcopy, hread2]
      rw [fsRead_fsWrite_same]

theorem delete_mountFS_content (fs : FS) (mp content : String)
    (hread : fsRead fs FSTAB = some content) :
    (delete_mountFS fs mp).2.1 = true ∧
      fsRead (delete_mountFS fs mp).1 FSTAB = some (deleteMountContent mp content) := by
  obtain ⟨fs1, hcopy, hdst, hoth, hmode⟩ :=
    fsCopy_eq_some fs FSTAB (FSTAB ++ ".bak") content hread
  have hread1 : fsRead fs1 FSTAB = some content := by
    rw [hoth FSTAB (by decide), hread]
  constructor
  · simp only [delete_mountFS, hcopy, hread1]
  · simp only [delete_mountFS, hcopy, hread1]
    rw [fsRead_fsWrite_same]

/-- C2 counterexample: on the empty mount table, appending an entry and then
deleting by its mountpoint does not restore the pre-append lines (which would
be none): the blank separator line and the provenance comment line written by
the append survive the deletion, because the append writes the comment before
the entry while the deletion skips only a comment after a matching line. -/
theorem claim_C2_counterexample :
    (∀ l ∈ pyReadlines "", pyIn "/mnt/x" l = false)
    ∧ (add_mountFS ⟨[(FSTAB, "")], []⟩ "//srv/share" "/mnt/x" "cifs" "" "" "" "T").2.1 = true
    ∧ (delete_mountFS (add_mountFS ⟨[(FSTAB, "")], []⟩
        "//srv/share" "/mnt/x" "cifs" "" "" "" "T").1 "/mnt/x").2.1 = true
    ∧ fsRead (delete_mountFS (add_mountFS ⟨[(FSTAB, "")], []⟩
        "//srv/share" "/mnt/x" "cifs" "" "" "" "T").1 "/mnt/x").1 FSTAB =
      some ("\n" ++ addMountComment "T")
    ∧ fsRead (delete_mountFS (add_mountFS ⟨[(FSTAB, "")], []⟩
        "//srv/share" "/mnt/x" "cifs" "" "" "" "T").1 "/mnt/x").1 FSTAB ≠
      some (writeLines ((pyReadlines "").filter (fun l => !(pyIn "/mnt/x" l)))) := by
  decide

/-- C2 amended: an append/delete cycle on a mount table none of whose lines
contains the mountpoint removes the appended entry line but keeps the
appended blank separator and provenance comment: the resulting file is the
original content followed by a blank line and the provenance comment line,
not the original content alone.  (The side conditions say that the original
content consists of whole lines, the mountpoint is nonempty and newline-free,
the timestamp and entry fields are newline-free, and the entry line is not
itself shaped like a comment.) -/
theorem claim_C2 (fs : FS) (content remote mp fstype u p opts now : String)
    (hread : fsRead fs FSTAB = some content)
    (hend : endsNL content)
    (hne : mp ≠ "") (hmpnl : pyIn "\n" mp = false)
    (hnow : pyIn "\n" now = false) (hremote : pyIn "\n" remote = false)
    (hfstype : pyIn "\n" fstype = false)
    (hoptnl : pyIn "\n" (finalOptions u p opts mp) = false)
    (hmatch : ∀ l ∈ pyReadlines content, pyIn mp l = false)
    (hentry : pyStartsWith "#"
      (pyStrip (fstabEntryLine remote mp fstype (finalOptions u p opts mp))) = false) :
    (add_mountFS fs remote mp fstype u p opts now).2.1 = true
    ∧ (delete_mountFS (add_mountFS fs remote mp fstype u p opts now).1 mp).2.1 = true
    ∧ fsRead (delete_mountFS (add_mountFS fs remote mp fstype u p opts now).1 mp).1 FSTAB =
        some (content ++ ("\n" ++ addMountComment now)) := by
  obtain ⟨hs1, hf1⟩ := add_mountFS_success fs remote mp fstype u p opts now content hread
  obtain ⟨hs2, hf2⟩ := delete_mountFS_content _ mp _ hf1
  refine ⟨hs1, hs2, ?_⟩
  rw [hf2]
  have hdecomp : content ++ "\n" ++ addMountComment now ++
      fstabEntryLine remote mp fstype (finalOptions u p opts mp) =
      content ++ ("\n" ++ addMountComment now ++
        fstabEntryLine remote mp fstype (finalOptions u p opts mp)) := by
    apply String.ext; simp [String.data_append]
  rw [deleteMountContent, hdecomp, pyReadlines_append _ _ hend,
    pyReadlines_add_suffix remote mp fstype (finalOptions u p opts mp) now
      hnow hremote hmpnl hfstype hoptnl,
    deleteMountAux_append_keep _ _ _ hmatch,
    deleteMountAux_add_suffix remote mp fstype (finalOptions u p opts mp) now
      hne hmpnl hentry,
    writeLines_append, writeLines_pyReadlines]
  have hpair : writeLines ["\n", addMountComment now] = "\n" ++ addMountComment now := by
    apply String.ext; simp [writeLines, String.data_append]
  rw [hpair]

/-- Witness for C2 amended at a concrete cycle on the empty mount table. -/
theorem claim_C2_witness :
    (add_mountFS ⟨[(FSTAB, "")], []⟩ "//srv/share" "/mnt/x" "cifs" "" "" "rw" "T").2.1 = true
    ∧ (delete_mountFS (add_mountFS ⟨[(FSTAB, "")], []⟩
        "//srv/share" "/mnt/x" "cifs" "" "" "rw" "T").1 "/mnt/x").2.1 = true
    ∧ fsRead (delete_mountFS (add_mountFS ⟨[(FSTAB, "")], []⟩
        "//srv/share" "/mnt/x" "cifs" "" "" "rw" "T").1 "/mnt/x").1 FSTAB =
      some ("" ++ ("\n" ++ addMountComment "T")) :=
  claim_C2 ⟨[(FSTAB, "")], []⟩ "" "//srv/share" "/mnt/x" "cifs" "" "" "rw" "T"
    (by decide) (Or.inl rfl) (by decide) (by decide) (by decide) (by decide)
    (by decide) (by decide) (by decide) (by decide)

/-! ### Claim C3 -/

theorem startsWith_hash_of_provenance (s : String)
    (h : pyStartsWith provenanceTag s = true) : pyStartsWith "#" s = true := by
  rw [pyStartsWith, decide_eq_true_iff] at h ⊢
  exact List.IsPrefix.trans (show ("#" : String).data <+: provenanceTag.data by decide) h

theorem deleteMountAux_sublist (mp : String) (flag : Bool) (lines : List String) :
    (deleteMountAux mp flag lines).Sublist lines := by
  induction lines generalizing flag with
  | nil => simp [deleteMountAux]
  | cons a t ih =>
    simp only [deleteMountAux]
    by_cases h1 : (pyIn mp a && !(pyStartsWith "#" (pyStrip a))) = true
    · rw [if_pos h1]
      exact (ih true).trans (List.sublist_cons_self a t)
    · rw [if_neg h1]
      by_cases h2 : (flag && pyStartsWith provenanceTag (pyStrip a)) = true
      · rw [if_pos h2]
        exact (ih false).trans (List.sublist_cons_self a t)
      · rw [if_neg h2]
        exact (ih flag).cons₂ a

theorem deleteMountAux_matching_removed (mp : String) (flag : Bool) (lines : List String) :
    ∀ l ∈ deleteMountAux mp flag lines,
      pyStartsWith "#" (pyStrip l) = true ∨ pyIn mp l = false := by
  induction lines generalizing flag with
  | nil => simp [deleteMountAux]
  | cons a t ih =>
    simp only [deleteMountAux]
    by_cases h1 : (pyIn mp a && !(pyStartsWith "#" (pyStrip a))) = true
    · rw [if_pos h1]
      exact ih true
    · rw [if_neg h1]
      by_cases h2 : (flag && pyStartsWith provenanceTag (pyStrip a)) = true
      · rw [if_pos h2]
        exact ih false
      · rw [if_neg h2]
        intro l hl
        rcases List.mem_cons.mp hl with rfl | hlt
        · cases hx : pyIn mp l with
          | false => exact Or.inr rfl
          | true =>
            cases hy : pyStartsWith "#" (pyStrip l) with
            | true => exact Or.inl rfl
            | false => exact absurd (by rw [hx, hy]; rfl) h1
        · exact ih flag l hlt

theorem deleteMountAux_keeps_noncomment (mp : String) (flag : Bool) (lines : List String) :
    ∀ l ∈ lines, pyStartsWith "#" (pyStrip l) = false → pyIn mp l = false →
      l ∈ deleteMountAux mp flag lines := by
  induction lines generalizing flag with
  | nil => simp
  | cons a t ih =>
    intro l hl hc hm
    simp only [deleteMountAux]
    rcases List.mem_cons.mp hl with rfl | hlt
    · have h1 : (pyIn mp l && !(pyStartsWith "#" (pyStrip l))) = false := by
        rw [hm]; rfl
      have hprov : pyStartsWith provenanceTag (pyStrip l) = false := by
        cases hp : pyStartsWith provenanceTag (pyStrip l) with
        | false => rfl
        | true => exact absurd (startsWith_hash_of_provenance _ hp) (by rw [hc]; simp)
      have h2 : (flag && pyStartsWith provenanceTag (pyStrip l)) = false := by
        rw [hprov, Bool.and_false]
      rw [if_neg (by rw [h1]; simp), if_neg (by rw [h2]; simp)]
      exact List.mem_cons_self l _
    · by_cases h1 : (pyIn mp a && !(pyStartsWith "#" (pyStrip a))) = true
      · rw [if_pos h1]
        exact ih true l hlt hc hm
      · rw [if_neg h1]
        by_cases h2 : (flag && pyStartsWith provenanceTag (pyStrip a)) = true
        · rw [if_pos h2]
          exact ih false l hlt hc hm
        · rw [if_neg h2]
          exact List.mem_cons_of_mem a (ih flag l hlt hc hm)

theorem deleteMountAux_keeps_plain_comments (mp : String) (flag : Bool) (lines : List String) :
    ∀ l ∈ lines, pyStartsWith "#" (pyStrip l) = true →
      pyStartsWith provenanceTag (pyStrip l) = false →
      l ∈ deleteMountAux mp flag lines := by
  induction lines generalizing flag with
  | nil => simp
  | cons a t ih =>
    intro l hl hc hp
    simp only [deleteMountAux]
    rcases List.mem_cons.mp hl with rfl | hlt
    · have h1 : (pyIn mp l && !(pyStartsWith "#" (pyStrip l))) = false := by
        rw [hc]; simp
      have h2 : (flag && pyStartsWith provenanceTag (pyStrip l)) = false := by
        rw [hp, Bool.and_false]
      rw [if_neg (by rw [h1]; simp), if_neg (by rw [h2]; simp)]
      exact List.mem_cons_self l _
    · by_cases h1 : (pyIn mp a && !(pyStartsWith "#" (pyStrip a))) = true
      · rw [if_pos h1]
        exact ih true l hlt hc hp
      · rw [if_neg h1]
        by_cases h2 : (flag && pyStartsWith provenanceTag (pyStrip a)) = true
        · rw [if_pos h2]
          exact ih false l hlt hc hp
        · rw [if_neg h2]
          exact List.mem_cons_of_mem a (ih flag l hlt hc hp)

/-- C3 counterexample: a matching entry line followed by an unrelated line
and only then by a provenance comment.  The code's deletion also removes that
provenance comment (its skip flag persists past the immediately following
line), while the deletion described by the claim, which only removes a
provenance comment immediately following a matched line, keeps it: the two
results differ. -/
theorem claim_C3_counterexample :
    deleteMountContent "/mnt/x"
        "//s/x\t/mnt/x\tcifs\to\t0 0\nkeep me\n# Added by Samba Control Center - old\n" =
      "keep me\n"
    ∧ writeLines (deleteMountSpecLines "/mnt/x" (pyReadlines
        "//s/x\t/mnt/x\tcifs\to\t0 0\nkeep me\n# Added by Samba Control Center - old\n")) =
      "keep me\n# Added by Samba Control Center - old\n"
    ∧ deleteMountContent "/mnt/x"
        "//s/x\t/mnt/x\tcifs\to\t0 0\nkeep me\n# Added by Samba Control Center - old\n" ≠
      writeLines (deleteMountSpecLines "/mnt/x" (pyReadlines
        "//s/x\t/mnt/x\tcifs\to\t0 0\nkeep me\n# Added by Samba Control Center - old\n")) := by
  decide

/-- C3 amended: delete_mount rewrites the file from its lines: the output is
a subsequence of the input lines (everything kept is verbatim and in order);
every non-comment line containing the mountpoint is omitted and they are the
only non-comment lines omitted; comment lines not starting with the
provenance marker are always kept; for each matched line the pass drops the
next later provenance-marker comment while its skip flag is pending, which
need not be the immediately following line. -/
theorem claim_C3 (mp content : String) :
    deleteMountContent mp content =
        writeLines (deleteMountAux mp false (pyReadlines content))
    ∧ (deleteMountAux mp false (pyReadlines content)).Sublist (pyReadlines content)
    ∧ (∀ l ∈ deleteMountAux mp false (pyReadlines content),
        pyStartsWith "#" (pyStrip l) = true ∨ pyIn mp l = false)
    ∧ (∀ l ∈ pyReadlines content, pyStartsWith "#" (pyStrip l) = false →
        pyIn mp l = false → l ∈ deleteMountAux mp false (pyReadlines content))
    ∧ (∀ l ∈ pyReadlines content, pyStartsWith "#" (pyStrip l) = true →
        pyStartsWith provenanceTag (pyStrip l) = false →
        l ∈ deleteMountAux mp false (pyReadlines content)) :=
  ⟨rfl, deleteMountAux_sublist mp false _, deleteMountAux_matching_removed mp false _,
   deleteMountAux_keeps_noncomment mp false _, deleteMountAux_keeps_plain_comments mp false _⟩

/-- Witness for C3 amended at the counterexample content. -/
theorem claim_C3_witness :
    ("keep me\n" : String) ∈ deleteMountAux "/mnt/x" false (pyReadlines
        "//s/x\t/mnt/x\tcifs\to\t0 0\nkeep me\n# Added by Samba Control Center - old\n") :=
  (claim_C3 "/mnt/x"
      "//s/x\t/mnt/x\tcifs\to\t0 0\nkeep me\n# Added by Samba Control Center - old\n").2.2.2.1
    "keep me\n" (by decide) (by decide) (by decide)

/-! ### Claim C8 -/

theorem fstabMountOfLine_is_mounted (active : List String) (raw : String) (m : CifsMount)
    (h : fstabMountOfLine active raw = some m) :
    m.is_mounted = active.contains m.mountpoint := by
  simp only [fstabMountOfLine] at h
  split at h
  · exact absurd h (by simp)
  · split at h
    · split at h
      · injection h with h
        subst h
        rfl
      · exact absurd h (by simp)
    · exact absurd h (by simp)

theorem activeMountOfLine_some_iff (line mp : String) :
    activeMountOfLine line = some mp ↔ ∃ dev ty rest,
      pySplit line = dev :: mp :: ty :: rest ∧
        netFsTypes.contains (pyLower ty) = true := by
  unfold activeMountOfLine
  rcases hsplit : pySplit line with _ | ⟨dev, _ | ⟨mp2, _ | ⟨ty, rest⟩⟩⟩
  · simp [hsplit]
  · simp [hsplit]
  · simp [hsplit]
  · by_cases hty : netFsTypes.contains (pyLower ty) = true
    · simp only [hty, if_true]
      constructor
      · intro h
        injection h with h
        exact ⟨dev, ty, rest, by rw [h], hty⟩
      · rintro ⟨dev', ty', rest', heq, hty'⟩
        injection heq with h1 h2
        injection h2 with h2 h3
        rw [h2]
    · simp only [if_neg hty]
      constructor
      · intro h
        exact absurd h (by simp)
      · rintro ⟨dev', ty', rest', heq, hty'⟩
        injection heq with h1 h2
        injection h2 with h2 h3
        injection h3 with h3 h4
        rw [← h3] at hty'
        exact absurd hty' hty

/-- C8: for every entry returned by get_fstab_mounts, is_mounted is true
exactly when the entry's mountpoint is the second whitespace-separated field
of some line of the live mount-status source whose third field, lowered, is a
recognized network-filesystem type tag. -/
theorem claim_C8 (fstab proc : String) (m : CifsMount)
    (hm : m ∈ get_fstab_mounts fstab proc) :
    m.is_mounted = true ↔ ∃ line ∈ pyReadlines proc, ∃ dev ty rest,
      pySplit line = dev :: m.mountpoint :: ty :: rest ∧
        netFsTypes.contains (pyLower ty) = true := by
  obtain ⟨raw, -, hsome⟩ := List.mem_filterMap.mp hm
  rw [fstabMountOfLine_is_mounted _ _ _ hsome]
  constructor
  · intro h
    have hmem : m.mountpoint ∈ get_active_mounts proc := (contains_eq_true_iff _ _).mp h
    obtain ⟨line, hline, hsome2⟩ := List.mem_filterMap.mp hmem
    obtain ⟨dev, ty, rest, hsplit, hty⟩ :=
      (activeMountOfLine_some_iff line m.mountpoint).mp hsome2
    exact ⟨line, hline, dev, ty, rest, hsplit, hty⟩
  · rintro ⟨line, hline, dev, ty, rest, hsplit, hty⟩
    refine (contains_eq_true_iff _ _).mpr ?_
    exact List.mem_filterMap.mpr ⟨line, hline,
      (activeMountOfLine_some_iff line m.mountpoint).mpr ⟨dev, ty, rest, hsplit, hty⟩⟩

/-- Witness for C8 at a concrete table with one mounted and one unmounted entry. -/
theorem claim_C8_witness :
    ({ remote := "//s/x", mountpoint := "/mnt/x", fstype := "cifs", options := "rw",
       credentials_file := none, is_mounted := true } : CifsMount) ∈
      get_fstab_mounts "//s/x /mnt/x cifs rw 0 0\n//s/y /mnt/y cifs rw 0 0\n"
        "//s/x /mnt/x cifs rw 0 0\n"
    ∧ (({ remote := "//s/x", mountpoint := "/mnt/x", fstype := "cifs", options := "rw",
          credentials_file := none, is_mounted := true } : CifsMount).is_mounted = true ↔
        ∃ line ∈ pyReadlines "//s/x /mnt/x cifs rw 0 0\n", ∃ dev ty rest,
          pySplit line = dev :: "/mnt/x" :: ty :: rest ∧
            netFsTypes.contains (pyLower ty) = true) :=
  ⟨by decide,
   claim_C8 "//s/x /mnt/x cifs rw 0 0\n//s/y /mnt/y cifs rw 0 0\n"
     "//s/x /mnt/x cifs rw 0 0\n"
     { remote := "//s/x", mountpoint := "/mnt/x", fstype := "cifs", options := "rw",
       credentials_file := none, is_mounted := true } (by decide)⟩

end SambaCC
